import Mathlib

/-!
Verification development for the stock-market dashboard's core logic:
the simulated portfolio ledger (buy/sell execution with average-cost
accounting), the API cache with TTL, the rate-limiting request queue,
retry with exponential backoff, the synthetic historical-data fallback,
and the watchlist store.

JavaScript numbers are modelled as rationals (ℚ); timestamps as naturals;
the JS `Map` / object-keyed records as association lists with unique keys;
async thunks as pure functions from the state they read plus the fetched
price to an `Except` of the payload; Redux reducers as pure state
transformers.  Error message strings are modelled as an inductive error
type carrying the data interpolated into the message.
-/

namespace StockDashboard

/-- Status field of the Redux slices (idle / loading / succeeded / failed). -/
inductive ApiStatus where
  | idle
  | loading
  | succeeded
  | failed
deriving DecidableEq, Repr

/-- Errors thrown by the buy/sell thunks (modelling the thrown message
strings of `executeBuyOrder` / `executeSellOrder`). -/
inductive LedgerError where
  | priceUnavailable
  | insufficientFunds (required available : ℚ)
  | noSuchHolding (symbol : String)
  | insufficientShares (owned : ℚ) (symbol : String)
deriving DecidableEq, Repr

/-- A portfolio holding, from `types/index.ts` (`PortfolioHolding`). -/
structure PortfolioHolding where
  symbol : String
  name : String
  shares : ℚ
  averageCost : ℚ
  totalCost : ℚ
deriving DecidableEq, Repr

/-- Transaction type tag. -/
inductive TxType where
  | buy
  | sell
deriving DecidableEq, Repr

/-- A ledger transaction record, from `types/index.ts` (`Transaction`). -/
structure Transaction where
  id : String
  type : TxType
  symbol : String
  name : String
  shares : ℚ
  price : ℚ
  total : ℚ
  timestamp : ℕ
deriving DecidableEq, Repr

/-- `DEFAULT_INITIAL_BALANCE` from the portfolio slice. -/
def DEFAULT_INITIAL_BALANCE : ℚ := 100000

/-- The portfolio slice state (`PortfolioState` in `types/index.ts`).
`currentPrices` is the `Record<string, number>` of last fetched prices,
modelled as an association list with unique keys. -/
structure PortfolioState where
  holdings : List PortfolioHolding
  transactions : List Transaction
  cashBalance : ℚ
  initialBalance : ℚ
  currentPrices : List (String × ℚ)
  status : ApiStatus
  error : Option LedgerError
deriving DecidableEq, Repr

/-- Initial portfolio state when nothing is persisted in local storage. -/
def initialPortfolioState : PortfolioState where
  holdings := []
  transactions := []
  cashBalance := DEFAULT_INITIAL_BALANCE
  initialBalance := DEFAULT_INITIAL_BALANCE
  currentPrices := []
  status := .idle
  error := none

/-- Payload of a fulfilled `executeBuyOrder` thunk. -/
structure BuyPayload where
  holding : PortfolioHolding
  transaction : Transaction
  newCashBalance : ℚ
deriving DecidableEq, Repr

/-- Payload of a fulfilled `executeSellOrder` thunk; `holding` is `none`
when all shares were sold. -/
structure SellPayload where
  holding : Option PortfolioHolding
  transaction : Transaction
  newCashBalance : ℚ
  realizedPnL : ℚ
deriving DecidableEq, Repr

/-- The `executeBuyOrder` async thunk body.  `price` is the result of the
fresh `stockApi.getPrice(symbol, true)` lookup; `txId` and `ts` stand for
the generated transaction id and `Date.now()`.  Checks, in source order:
zero price, then insufficient funds; otherwise merges into an existing
holding by weighted average cost or creates a new one. -/
def executeBuyOrder (st : PortfolioState) (symbol name : String)
    (shares price : ℚ) (txId : String) (ts : ℕ) : Except LedgerError BuyPayload :=
  if price = 0 then
    .error .priceUnavailable
  else
    let total := price * shares
    if total > st.cashBalance then
      .error (.insufficientFunds total st.cashBalance)
    else
      let newHolding : PortfolioHolding :=
        match st.holdings.find? (fun h => h.symbol == symbol) with
        | some existingHolding =>
            let totalShares := existingHolding.shares + shares
            let totalCost := existingHolding.totalCost + total
            let averageCost := totalCost / totalShares
            { symbol := symbol
              name := existingHolding.name
              shares := totalShares
              averageCost := averageCost
              totalCost := totalCost }
        | none =>
            { symbol := symbol
              name := name
              shares := shares
              averageCost := price
              totalCost := total }
      .ok
        { holding := newHolding
          transaction :=
            { id := txId, type := .buy, symbol := symbol, name := name
              shares := shares, price := price, total := total, timestamp := ts }
          newCashBalance := st.cashBalance - total }

/-- The `executeSellOrder` async thunk body.  Checks, in source order:
holding exists, enough shares, then zero price.  On a partial sell the
average cost is unchanged and `totalCost` is recomputed from it; selling
all shares yields `holding = none`. -/
def executeSellOrder (st : PortfolioState) (symbol : String)
    (shares price : ℚ) (txId : String) (ts : ℕ) : Except LedgerError SellPayload :=
  match st.holdings.find? (fun h => h.symbol == symbol) with
  | none => .error (.noSuchHolding symbol)
  | some existingHolding =>
    if shares > existingHolding.shares then
      .error (.insufficientShares existingHolding.shares symbol)
    else if price = 0 then
      .error .priceUnavailable
    else
      let total := price * shares
      let costBasis := existingHolding.averageCost * shares
      let realizedPnL := total - costBasis
      let newHolding : Option PortfolioHolding :=
        if shares < existingHolding.shares then
          let remainingShares := existingHolding.shares - shares
          let remainingCost := existingHolding.averageCost * remainingShares
          some
            { symbol := existingHolding.symbol
              name := existingHolding.name
              shares := remainingShares
              averageCost := existingHolding.averageCost
              totalCost := remainingCost }
        else none
      .ok
        { holding := newHolding
          transaction :=
            { id := txId, type := .sell, symbol := symbol
              name := existingHolding.name, shares := shares, price := price
              total := total, timestamp := ts }
          newCashBalance := st.cashBalance + total
          realizedPnL := realizedPnL }

/-- Replace the first holding with the same symbol, or append if none
matches: the `findIndex`/assign-else-push pattern of the buy reducer. -/
def upsertHolding : List PortfolioHolding → PortfolioHolding → List PortfolioHolding
  | [], newH => [newH]
  | h :: rest, newH =>
      if h.symbol == newH.symbol then newH :: rest else h :: upsertHolding rest newH

/-- Replace the first holding with the same symbol; do nothing if none
matches: the `findIndex`/assign pattern of the sell reducer (which has no
push branch). -/
def replaceHolding : List PortfolioHolding → PortfolioHolding → List PortfolioHolding
  | [], _ => []
  | h :: rest, newH =>
      if h.symbol == newH.symbol then newH :: rest else h :: replaceHolding rest newH

/-- Set a key in a string-keyed record (JS object assignment). -/
def setAssoc (m : List (String × ℚ)) (key : String) (v : ℚ) : List (String × ℚ) :=
  if m.any (fun kv => kv.1 == key) then
    m.map (fun kv => if kv.1 == key then (key, v) else kv)
  else m ++ [(key, v)]

/-- Delete a key from a string-keyed record (JS `delete`). -/
def removeAssoc (m : List (String × ℚ)) (key : String) : List (String × ℚ) :=
  m.filter (fun kv => kv.1 != key)

/-- The `pending` reducer shared by both thunks. -/
def orderPending (st : PortfolioState) : PortfolioState :=
  { st with status := .loading, error := none }

/-- The `executeBuyOrder.fulfilled` reducer. -/
def buyFulfilled (st : PortfolioState) (p : BuyPayload) : PortfolioState :=
  { st with
    holdings := upsertHolding st.holdings p.holding
    transactions := p.transaction :: st.transactions
    cashBalance := p.newCashBalance
    currentPrices := setAssoc st.currentPrices p.holding.symbol p.transaction.price
    status := .succeeded }

/-- The `executeBuyOrder.rejected` reducer. -/
def buyRejected (st : PortfolioState) (e : LedgerError) : PortfolioState :=
  { st with status := .failed, error := some e }

/-- The `executeSellOrder.fulfilled` reducer. -/
def sellFulfilled (st : PortfolioState) (p : SellPayload) : PortfolioState :=
  let holdings :=
    match p.holding with
    | some h => replaceHolding st.holdings h
    | none => st.holdings.filter (fun h => h.symbol != p.transaction.symbol)
  let currentPrices :=
    match p.holding with
    | some _ => st.currentPrices
    | none => removeAssoc st.currentPrices p.transaction.symbol
  { st with
    holdings := holdings
    transactions := p.transaction :: st.transactions
    cashBalance := p.newCashBalance
    currentPrices := currentPrices
    status := .succeeded }

/-- The `executeSellOrder.rejected` reducer. -/
def sellRejected (st : PortfolioState) (e : LedgerError) : PortfolioState :=
  { st with status := .failed, error := some e }

/-- The `resetPortfolio` reducer. -/
def resetPortfolio (st : PortfolioState) : PortfolioState :=
  { st with
    holdings := []
    transactions := []
    cashBalance := DEFAULT_INITIAL_BALANCE
    initialBalance := DEFAULT_INITIAL_BALANCE
    currentPrices := []
    error := none }

/-- The `setInitialBalance` reducer: clamps the requested amount below at
zero, sets both balances to it and clears holdings, transactions and
cached current prices. -/
def setInitialBalance (st : PortfolioState) (amount : ℚ) : PortfolioState :=
  let newBalance := max 0 amount
  { st with
    initialBalance := newBalance
    cashBalance := newBalance
    holdings := []
    transactions := []
    currentPrices := [] }

/-- The `updatePrice` reducer. -/
def updatePrice (st : PortfolioState) (symbol : String) (price : ℚ) : PortfolioState :=
  { st with currentPrices := setAssoc st.currentPrices symbol price }

/-- A dispatched buy or sell order: the user-supplied fields together with
the price the thunk fetches and the generated id / timestamp. -/
inductive PortfolioOp where
  | buy (symbol name : String) (shares price : ℚ) (txId : String) (ts : ℕ)
  | sell (symbol : String) (shares price : ℚ) (txId : String) (ts : ℕ)
deriving DecidableEq, Repr

/-- Dispatching one order end to end: the `pending` reducer fires, the
thunk body runs against the resulting state, and the `fulfilled` or
`rejected` reducer applies its outcome. -/
def applyOp (st : PortfolioState) (op : PortfolioOp) : PortfolioState :=
  match op with
  | .buy symbol name shares price txId ts =>
      let st0 := orderPending st
      match executeBuyOrder st0 symbol name shares price txId ts with
      | .ok p => buyFulfilled st0 p
      | .error e => buyRejected st0 e
  | .sell symbol shares price txId ts =>
      let st0 := orderPending st
      match executeSellOrder st0 symbol shares price txId ts with
      | .ok p => sellFulfilled st0 p
      | .error e => sellRejected st0 e

/-- `RATE_LIMIT_DELAY` (ms) from `services/api.ts`. -/
def RATE_LIMIT_DELAY : ℕ := 300

/-- `CACHE_TTL` (ms) from `services/api.ts`. -/
def CACHE_TTL : ℕ := 60000

/-- `MAX_RETRIES` from `services/api.ts`. -/
def MAX_RETRIES : ℕ := 2

/-- `RETRY_BASE_DELAY` (ms) from `services/api.ts`. -/
def RETRY_BASE_DELAY : ℕ := 500

/-- A cache entry: payload plus write timestamp (`CacheEntry<T>`). -/
structure CacheEntry (α : Type) where
  data : α
  timestamp : ℕ
deriving DecidableEq, Repr

/-- The in-memory API cache (`ApiCache`): a `Map` from string keys to
entries, modelled as an association list with unique keys (`Map.set`
overwrites in place, so keys stay unique). -/
structure ApiCache (α : Type) where
  cache : List (String × CacheEntry α)
deriving DecidableEq, Repr

/-- Set a key in the cache map: overwrite the existing slot in place or
append a new one (JS `Map.set`). -/
def setCacheAssoc (m : List (String × CacheEntry α)) (key : String)
    (e : CacheEntry α) : List (String × CacheEntry α) :=
  if m.any (fun kv => kv.1 == key) then
    m.map (fun kv => if kv.1 == key then (key, e) else kv)
  else m ++ [(key, e)]

/-- `ApiCache.get`, with `Date.now()` passed explicitly.  Returns the
payload, together with the cache after the call: an entry whose age
exceeds `CACHE_TTL` is deleted (lazy eviction on read) and reported
absent. -/
def cacheGet (c : ApiCache α) (key : String) (now : ℕ) : Option α × ApiCache α :=
  match c.cache.find? (fun kv => kv.1 == key) with
  | none => (none, c)
  | some kv =>
      if CACHE_TTL < now - kv.2.timestamp then
        (none, ⟨c.cache.filter (fun kv2 => kv2.1 != key)⟩)
      else
        (some kv.2.data, c)

/-- `ApiCache.set`, with `Date.now()` passed explicitly. -/
def cacheSet (c : ApiCache α) (key : String) (data : α) (now : ℕ) : ApiCache α :=
  ⟨setCacheAssoc c.cache key { data := data, timestamp := now }⟩

/-- `ApiCache.invalidate`. -/
def cacheInvalidate (c : ApiCache α) (key : String) : ApiCache α :=
  ⟨c.cache.filter (fun kv => kv.1 != key)⟩

/-- `ApiCache.clear`. -/
def cacheClear (_ : ApiCache α) : ApiCache α := ⟨[]⟩

/-- One queued task, tagged with its admission id; `duration` is how long
the dispatched request runs before the drain loop resumes. -/
structure QueueTask where
  id : ℕ
  duration : ℕ
deriving DecidableEq, Repr

/-- The `RequestQueue.processQueue` drain loop over logical time.  `now`
is the current clock, `last` the `lastRequestTime` field.  Each step
computes the time since the previous dispatch began, sleeps the remaining
part of `RATE_LIMIT_DELAY` if needed, records the dispatch start time,
and runs the task to completion before looking at the next one.  Returns
the `(id, start-time)` pairs in dispatch order. -/
def drainQueue : List QueueTask → ℕ → ℕ → List (ℕ × ℕ)
  | [], _, _ => []
  | t :: rest, now, last =>
      let timeSinceLastRequest := now - last
      let start :=
        if timeSinceLastRequest < RATE_LIMIT_DELAY then
          now + (RATE_LIMIT_DELAY - timeSinceLastRequest)
        else now
      (t.id, start) :: drainQueue rest (start + t.duration) start

/-- An upstream failure as seen by `retryWithBackoff`: an axios error
whose response status may be absent. -/
structure ApiError where
  status : Option ℕ
deriving DecidableEq, Repr

/-- The retryable test of `retryWithBackoff`: status 429 or a 5xx server
fault; an absent status is falsy in the source and hence not retryable. -/
def isRetryable (e : ApiError) : Bool :=
  match e.status with
  | some s => s == 429 || 500 ≤ s
  | none => false

/-- Trace of one `retryWithBackoff` run: the final outcome (`Except.error
none` models the `throw lastError` of a run whose loop never executed, so
`lastError` is still `null`), the backoff delays slept in order, and how
many attempts were made. -/
structure RetryTrace (α : Type) where
  result : Except (Option ApiError) α
  delays : List ℕ
  attempts : ℕ

/-- The `for (attempt = 0; attempt < retries; attempt++)` loop of
`retryWithBackoff`.  `results k` is the outcome the wrapped function
would produce on attempt `k`.  A failed attempt that is retryable and
not the last one sleeps `RETRY_BASE_DELAY * 2 ^ attempt` and continues;
otherwise the error is thrown at once. -/
def retryLoop (results : ℕ → Except ApiError α) (retries attempt : ℕ) : RetryTrace α :=
  if _h : retries ≤ attempt then
    { result := .error none, delays := [], attempts := 0 }
  else
    match results attempt with
    | .ok v => { result := .ok v, delays := [], attempts := 1 }
    | .error e =>
        if isRetryable e && attempt != retries - 1 then
          let rest := retryLoop results retries (attempt + 1)
          { result := rest.result
            delays := RETRY_BASE_DELAY * 2 ^ attempt :: rest.delays
            attempts := rest.attempts + 1 }
        else
          { result := .error (some e), delays := [], attempts := 1 }
termination_by retries - attempt

/-- `retryWithBackoff fn retries`, starting at attempt 0. -/
def retryWithBackoff (results : ℕ → Except ApiError α) (retries : ℕ) : RetryTrace α :=
  retryLoop results retries 0

/-- The chart time ranges (`TimeRange` in `types/index.ts`). -/
inductive TimeRange where
  | r1D
  | r1W
  | r1M
  | r3M
  | r6M
  | r1Y
  | r5Y
deriving DecidableEq, Repr

/-- Synthetic point count per range, the `points` table of
`generateMockHistoricalData`. -/
def mockPointCount : TimeRange → ℕ
  | .r1D => 78
  | .r1W => 35
  | .r1M => 22
  | .r3M => 65
  | .r6M => 130
  | .r1Y => 52
  | .r5Y => 60

/-- One OHLCV point (`HistoricalDataPoint`); the ISO `yyyy-mm-dd` date
string is modelled as the day number (days since epoch) it denotes. -/
structure HistoricalDataPoint where
  date : ℤ
  open_ : ℚ
  high : ℚ
  low : ℚ
  close : ℚ
  volume : ℕ
deriving DecidableEq, Repr

/-- JS `Number(x.toFixed(2))`: round to two decimal places. -/
def round2 (q : ℚ) : ℚ := (round (q * 100) : ℤ) / 100

/-- One iteration of the `generateMockHistoricalData` loop at loop index
`i` (the point is dated `i` days before today).  `rand` is the stream of
`Math.random()` draws and `r` the index of the next unused draw; the
iteration consumes five draws and threads the updated base price. -/
def mockPointStep (rand : ℕ → ℚ) (today : ℤ) (i : ℕ) (basePrice : ℚ) (r : ℕ) :
    HistoricalDataPoint × ℚ × ℕ :=
  let volatility : ℚ := 2 / 100
  let change := (rand r - 1 / 2) * 2 * volatility * basePrice
  let basePrice2 := max (basePrice + change) 50
  let openPrice := basePrice2
  let closePrice := basePrice2 + (rand (r + 1) - 1 / 2) * 5
  let highPrice := max openPrice closePrice + rand (r + 2) * 3
  let lowPrice := min openPrice closePrice - rand (r + 3) * 3
  let vol := (rand (r + 4) * 10000000).floor.toNat + 1000000
  ({ date := today - i
     open_ := round2 openPrice
     high := round2 highPrice
     low := round2 lowPrice
     close := round2 closePrice
     volume := vol }, basePrice2, r + 5)

/-- The `for (let i = numPoints - 1; i >= 0; i--)` loop, taking the list
of loop indices still to run. -/
def mockPointsGo (rand : ℕ → ℚ) (today : ℤ) :
    List ℕ → ℚ → ℕ → List HistoricalDataPoint
  | [], _, _ => []
  | i :: rest, basePrice, r =>
      let (p, basePrice2, r2) := mockPointStep rand today i basePrice r
      p :: mockPointsGo rand today rest basePrice2 r2

/-- `generateMockHistoricalData(timeRange)`: a synthetic random-walk
series of the expected length for the range, dated backwards from today,
seeded from base price 150. -/
def generateMockHistoricalData (rand : ℕ → ℚ) (today : ℤ)
    (timeRange : TimeRange) : List HistoricalDataPoint :=
  mockPointsGo rand today ((List.range (mockPointCount timeRange)).reverse) 150 0

/-- Upstream `/stock/candle` response body: the status string and the
optional parallel arrays. -/
structure CandleData where
  s : String
  t : Option (List ℕ)
  o : Option (List ℚ)
  h : Option (List ℚ)
  l : Option (List ℚ)
  c : Option (List ℚ)
  v : Option (List ℕ)
deriving Repr

/-- Day number denoted by the ISO date string of an epoch-seconds
timestamp (`new Date(t * 1000).toISOString().split('T')[0]`). -/
def epochDay (ts : ℕ) : ℤ := (ts / 86400 : ℕ)

/-- The response-processing core of `getHistoricalData`: on an explicit
`no_data` status (or missing close array) fall back to the synthetic
series, otherwise zip the parallel arrays index-wise into points. -/
def getHistoricalData (resp : CandleData) (rand : ℕ → ℚ) (today : ℤ)
    (timeRange : TimeRange) : List HistoricalDataPoint :=
  if resp.s == "no_data" || resp.c.isNone then
    generateMockHistoricalData rand today timeRange
  else
    (resp.c.getD []).mapIdx (fun index close =>
      { date := epochDay ((resp.t.getD []).getD index 0)
        open_ := (resp.o.getD []).getD index 0
        high := (resp.h.getD []).getD index 0
        low := (resp.l.getD []).getD index 0
        close := close
        volume := (resp.v.getD []).getD index 0 })

/-- A watchlist item (`WatchlistItem` in `types/index.ts`). -/
structure WatchlistItem where
  symbol : String
  name : String
  addedAt : ℕ
deriving DecidableEq, Repr

/-- The `addToWatchlist` reducer on the items list: a no-op when an item
with the symbol already exists, otherwise append with the current
timestamp. -/
def addToWatchlist (items : List WatchlistItem) (symbol name : String)
    (now : ℕ) : List WatchlistItem :=
  if items.any (fun item => item.symbol == symbol) then items
  else items ++ [{ symbol := symbol, name := name, addedAt := now }]

/-- The `removeFromWatchlist` reducer on the items list. -/
def removeFromWatchlist (items : List WatchlistItem) (symbol : String) :
    List WatchlistItem :=
  items.filter (fun item => item.symbol != symbol)

/-! Theorems -/

/-- C2: from the initial 100000 cash and no holdings, buying 10 AAPL at
fetched price 150 yields cash 98500 and holding (10 shares, average cost
150, total cost 1500); buying 5 more at 180 yields 15 shares, total cost
2400, average cost 160, cash 97600; selling 5 at 200 yields realized
profit 200, 10 remaining shares, total cost 1600, cash 98600. -/
theorem buy_buy_sell_scenario :
    (applyOp initialPortfolioState (.buy "AAPL" "Apple Inc" 10 150 "tx1" 1)).cashBalance = 98500
  ∧ (applyOp initialPortfolioState (.buy "AAPL" "Apple Inc" 10 150 "tx1" 1)).holdings
      = [⟨"AAPL", "Apple Inc", 10, 150, 1500⟩]
  ∧ (applyOp (applyOp initialPortfolioState (.buy "AAPL" "Apple Inc" 10 150 "tx1" 1))
        (.buy "AAPL" "Apple Inc" 5 180 "tx2" 2)).holdings
      = [⟨"AAPL", "Apple Inc", 15, 160, 2400⟩]
  ∧ (applyOp (applyOp initialPortfolioState (.buy "AAPL" "Apple Inc" 10 150 "tx1" 1))
        (.buy "AAPL" "Apple Inc" 5 180 "tx2" 2)).cashBalance = 97600
  ∧ (executeSellOrder
        (orderPending (applyOp (applyOp initialPortfolioState
          (.buy "AAPL" "Apple Inc" 10 150 "tx1" 1)) (.buy "AAPL" "Apple Inc" 5 180 "tx2" 2)))
        "AAPL" 5 200 "tx3" 3).map SellPayload.realizedPnL = .ok 200
  ∧ (applyOp (applyOp (applyOp initialPortfolioState (.buy "AAPL" "Apple Inc" 10 150 "tx1" 1))
        (.buy "AAPL" "Apple Inc" 5 180 "tx2" 2)) (.sell "AAPL" 5 200 "tx3" 3)).holdings
      = [⟨"AAPL", "Apple Inc", 10, 160, 1600⟩]
  ∧ (applyOp (applyOp (applyOp initialPortfolioState (.buy "AAPL" "Apple Inc" 10 150 "tx1" 1))
        (.buy "AAPL" "Apple Inc" 5 180 "tx2" 2)) (.sell "AAPL" 5 200 "tx3" 3)).cashBalance
      = 98600 := by
  norm_num [applyOp, executeBuyOrder, executeSellOrder, orderPending, buyFulfilled,
    sellFulfilled, upsertHolding, replaceHolding, setAssoc, removeAssoc,
    initialPortfolioState, DEFAULT_INITIAL_BALANCE, Except.map]

/-- C9: adding a symbol to the watchlist twice leaves exactly one entry
for it; the second add is a no-op because the symbol is already present
after the first. -/
theorem addToWatchlist_twice (items : List WatchlistItem)
    (symbol name name2 : String) (t t2 : ℕ)
    (habsent : ∀ item ∈ items, item.symbol ≠ symbol) :
    addToWatchlist (addToWatchlist items symbol name t) symbol name2 t2
      = addToWatchlist items symbol name t
  ∧ ((addToWatchlist items symbol name t).filter
      (fun item => item.symbol == symbol)).length = 1 := by
  have hany : items.any (fun item => item.symbol == symbol) = false := by
    rw [List.any_eq_false]
    intro item him
    simpa using habsent item him
  have hfilter : items.filter (fun item => item.symbol == symbol) = [] := by
    rw [List.filter_eq_nil_iff]
    intro item him
    simpa using habsent item him
  have h1 : addToWatchlist items symbol name t
      = items ++ [{ symbol := symbol, name := name, addedAt := t }] := by
    rw [addToWatchlist, hany]
    simp
  constructor
  · rw [h1, addToWatchlist]
    have h2 : ((items ++ [({ symbol := symbol, name := name, addedAt := t } :
        WatchlistItem)]).any (fun item => item.symbol == symbol)) = true := by
      simp [List.any_append]
    rw [h2]
    simp
  · rw [h1]
    simp [List.filter_append, hfilter]

/-- C9 witness: double add of AAPL to the empty watchlist. -/
theorem addToWatchlist_twice_witness :
    addToWatchlist (addToWatchlist [] "AAPL" "Apple Inc" 1) "AAPL" "Apple Inc" 2
      = addToWatchlist [] "AAPL" "Apple Inc" 1
  ∧ ((addToWatchlist [] "AAPL" "Apple Inc" 1).filter
      (fun item => item.symbol == "AAPL")).length = 1 :=
  addToWatchlist_twice [] "AAPL" "Apple Inc" "Apple Inc" 1 2 (by simp)

/-- C10: `setInitialBalance` with a negative amount clamps both the
initial balance and the cash balance to zero and clears holdings,
transactions and cached current prices. -/
theorem setInitialBalance_negative_clamped (st : PortfolioState) (amount : ℚ)
    (hneg : amount < 0) :
    (setInitialBalance st amount).initialBalance = 0
  ∧ (setInitialBalance st amount).cashBalance = 0
  ∧ (setInitialBalance st amount).holdings = []
  ∧ (setInitialBalance st amount).transactions = []
  ∧ (setInitialBalance st amount).currentPrices = [] := by
  have h0 : max (0 : ℚ) amount = 0 := max_eq_left hneg.le
  simp [setInitialBalance, h0]

/-- C10 witness: reconfiguring with amount -5 from the initial state. -/
theorem setInitialBalance_negative_clamped_witness :
    (setInitialBalance initialPortfolioState (-5)).initialBalance = 0
  ∧ (setInitialBalance initialPortfolioState (-5)).cashBalance = 0
  ∧ (setInitialBalance initialPortfolioState (-5)).holdings = []
  ∧ (setInitialBalance initialPortfolioState (-5)).transactions = []
  ∧ (setInitialBalance initialPortfolioState (-5)).currentPrices = [] :=
  setInitialBalance_negative_clamped initialPortfolioState (-5) (by norm_num)

/-- C4: a sell request for a symbol not held fails with the
no-such-holding error, and the rejected dispatch leaves the cash balance,
the holdings and the transaction log unchanged (only the status and the
stored error message change). -/
theorem sell_unknown_symbol_rejected (st : PortfolioState) (symbol : String)
    (shares price : ℚ) (txId : String) (ts : ℕ)
    (habsent : ∀ h ∈ st.holdings, h.symbol ≠ symbol) :
    executeSellOrder (orderPending st) symbol shares price txId ts
      = .error (.noSuchHolding symbol)
  ∧ (applyOp st (.sell symbol shares price txId ts)).cashBalance = st.cashBalance
  ∧ (applyOp st (.sell symbol shares price txId ts)).holdings = st.holdings
  ∧ (applyOp st (.sell symbol shares price txId ts)).transactions = st.transactions
  ∧ (applyOp st (.sell symbol shares price txId ts)).error
      = some (.noSuchHolding symbol) := by
  have hfind : (orderPending st).holdings.find? (fun h => h.symbol == symbol) = none := by
    rw [List.find?_eq_none]
    intro h hm
    simpa using habsent h hm
  have hsell : executeSellOrder (orderPending st) symbol shares price txId ts
      = .error (.noSuchHolding symbol) := by
    rw [executeSellOrder, hfind]
  have hsell2 := hsell
  simp only [orderPending] at hsell2
  refine ⟨hsell, ?_, ?_, ?_, ?_⟩ <;>
    simp [applyOp, orderPending, hsell2, sellRejected]

/-- C4 witness: selling AAPL while holding only MSFT. -/
theorem sell_unknown_symbol_rejected_witness :
    executeSellOrder
      (orderPending { initialPortfolioState with
        holdings := [⟨"MSFT", "Microsoft", 5, 100, 500⟩] }) "AAPL" 5 200 "tx" 0
      = .error (.noSuchHolding "AAPL")
  ∧ (applyOp { initialPortfolioState with
        holdings := [⟨"MSFT", "Microsoft", 5, 100, 500⟩] }
      (.sell "AAPL" 5 200 "tx" 0)).holdings = [⟨"MSFT", "Microsoft", 5, 100, 500⟩]
  ∧ (applyOp { initialPortfolioState with
        holdings := [⟨"MSFT", "Microsoft", 5, 100, 500⟩] }
      (.sell "AAPL" 5 200 "tx" 0)).cashBalance = 100000 := by
  have h := sell_unknown_symbol_rejected
    { initialPortfolioState with holdings := [⟨"MSFT", "Microsoft", 5, 100, 500⟩] }
    "AAPL" 5 200 "tx" 0 (by decide)
  exact ⟨h.1, h.2.2.1, h.2.1⟩

/-- Helper: the delay recorded at position `k` of a `retryLoop` run that
starts at attempt `attempt` is `RETRY_BASE_DELAY * 2 ^ (attempt + k)`. -/
theorem retryLoop_delays (results : ℕ → Except ApiError α) (retries : ℕ) :
    ∀ attempt k, k < (retryLoop results retries attempt).delays.length →
      (retryLoop results retries attempt).delays.getD k 0
        = RETRY_BASE_DELAY * 2 ^ (attempt + k) := by
  have main : ∀ fuel attempt, retries ≤ attempt + fuel →
      ∀ k, k < (retryLoop results retries attempt).delays.length →
        (retryLoop results retries attempt).delays.getD k 0
          = RETRY_BASE_DELAY * 2 ^ (attempt + k) := by
    intro fuel
    induction fuel with
    | zero =>
        intro attempt hle k h
        rw [retryLoop.eq_def] at h
        rw [dif_pos (by omega : retries ≤ attempt)] at h
        simp at h
    | succ n ih =>
        intro attempt hle k h
        by_cases hra : retries ≤ attempt
        · rw [retryLoop.eq_def] at h
          rw [dif_pos hra] at h
          simp at h
        · rw [retryLoop.eq_def] at h ⊢
          rw [dif_neg hra] at h ⊢
          cases hres : results attempt with
          | ok v => rw [hres] at h; simp at h
          | error e =>
              rw [hres] at h
              dsimp only at h ⊢
              by_cases hc : (isRetryable e && attempt != retries - 1) = true
              · simp only [hc, eq_self_iff_true, if_true] at h ⊢
                cases k with
                | zero => simp
                | succ k2 =>
                    simp only [List.length_cons] at h
                    have hlen : k2 < (retryLoop results retries (attempt + 1)).delays.length := by
                      omega
                    simp only [List.getD_cons_succ]
                    rw [ih (attempt + 1) (by omega) k2 hlen]
                    ring_nf
              · simp [hc] at h
  intro attempt k h
  exact main retries attempt (by omega) k h

/-- C5: in `retryWithBackoff`, the k-th backoff delay (zero-indexed, slept
after the k-th failed attempt and before the next one) is
`RETRY_BASE_DELAY * 2 ^ k`; and a non-retryable failure of the first
attempt propagates immediately: the run ends after exactly one attempt
with that error and no backoff sleeps. -/
theorem retry_backoff_growth_and_failfast (results : ℕ → Except ApiError α)
    (retries : ℕ) (hr : 1 ≤ retries) :
    (∀ k, k < (retryWithBackoff results retries).delays.length →
        (retryWithBackoff results retries).delays.getD k 0 = RETRY_BASE_DELAY * 2 ^ k)
  ∧ (∀ e, results 0 = .error e → isRetryable e = false →
        retryWithBackoff results retries
          = { result := .error (some e), delays := [], attempts := 1 }) := by
  constructor
  · intro k h
    simpa using retryLoop_delays results retries 0 k h
  · intro e hres hnr
    rw [retryWithBackoff, retryLoop.eq_def]
    rw [dif_neg (by omega : ¬ retries ≤ 0)]
    simp [hres, hnr]

/-- C5 witness: a 404 response (non-retryable) with the production retry
budget fails after a single attempt with no delays. -/
theorem retry_backoff_growth_and_failfast_witness :
    retryWithBackoff (fun _ => (.error ⟨some 404⟩ : Except ApiError ℕ)) MAX_RETRIES
      = { result := .error (some ⟨some 404⟩), delays := [], attempts := 1 } := by
  have h := retry_backoff_growth_and_failfast
    (fun _ => (.error ⟨some 404⟩ : Except ApiError ℕ)) MAX_RETRIES (by decide)
  exact h.2 ⟨some 404⟩ rfl (by decide)

/-- Helper: the first dispatch of a drain starts at least
`RATE_LIMIT_DELAY` after the previous dispatch began, provided the clock
has not gone backwards. -/
theorem drainQueue_head_start (l : List QueueTask) (now last : ℕ) (hle : last ≤ now) :
    ∀ p ∈ (drainQueue l now last).head?, last + RATE_LIMIT_DELAY ≤ p.2 := by
  cases l with
  | nil => intro p hp; simp [drainQueue] at hp
  | cons t rest =>
      intro p hp
      simp only [drainQueue, List.head?_cons, Option.mem_def, Option.some.injEq] at hp
      subst hp
      dsimp only
      by_cases hc : now - last < RATE_LIMIT_DELAY
      · rw [if_pos hc]; omega
      · rw [if_neg hc]; omega

/-- Helper: consecutive dispatch start times in a drain differ by at
least `RATE_LIMIT_DELAY`. -/
theorem drainQueue_chain (l : List QueueTask) (now last : ℕ) :
    List.Chain' (fun a b : ℕ × ℕ => a.2 + RATE_LIMIT_DELAY ≤ b.2)
      (drainQueue l now last) := by
  induction l generalizing now last with
  | nil => simp [drainQueue]
  | cons t rest ih =>
      simp only [drainQueue]
      rw [List.chain'_cons']
      refine ⟨?_, ih _ _⟩
      intro b hb
      exact drainQueue_head_start rest _ _ (Nat.le_add_right _ t.duration) b hb

/-- Helper: a drain dispatches exactly the queued tasks, in admission
order. -/
theorem drainQueue_map_fst (l : List QueueTask) (now last : ℕ) :
    (drainQueue l now last).map Prod.fst = l.map QueueTask.id := by
  induction l generalizing now last with
  | nil => rfl
  | cons t rest ih => simp [drainQueue, ih]

/-- C6: the request queue dispatches tasks strictly in FIFO admission
order, one at a time, and the start times of consecutive dispatches
differ by at least `RATE_LIMIT_DELAY` (300 ms), from any clock value and
previous-dispatch time. -/
theorem queue_fifo_and_paced (tasks : List QueueTask) (now last : ℕ) :
    (drainQueue tasks now last).map Prod.fst = tasks.map QueueTask.id
  ∧ List.Chain' (fun a b : ℕ × ℕ => a.2 + RATE_LIMIT_DELAY ≤ b.2)
      (drainQueue tasks now last)
  ∧ RATE_LIMIT_DELAY = 300 :=
  ⟨drainQueue_map_fst tasks now last, drainQueue_chain tasks now last, rfl⟩

/-- Helper: looking up a key right after setting it finds the fresh
entry, whatever the map held before. -/
theorem find?_setCacheAssoc (m : List (String × CacheEntry α)) (key : String)
    (e : CacheEntry α) :
    (setCacheAssoc m key e).find? (fun kv => kv.1 == key) = some (key, e) := by
  induction m with
  | nil => simp [setCacheAssoc]
  | cons kv0 rest ih =>
      rw [setCacheAssoc]
      by_cases h0 : kv0.1 = key
      · rw [if_pos (show ((kv0 :: rest).any fun kv => kv.1 == key) = true by
          simp [List.any_cons, h0])]
        rw [List.map_cons]
        rw [if_pos (show (kv0.1 == key) = true by simp [h0])]
        rw [List.find?_cons_of_pos _ (by simp)]
      · by_cases hr : (rest.any fun kv => kv.1 == key) = true
        · rw [if_pos (show ((kv0 :: rest).any fun kv => kv.1 == key) = true by
            simp [List.any_cons, hr])]
          rw [List.map_cons]
          rw [if_neg (show ¬(kv0.1 == key) = true by simp [h0])]
          rw [List.find?_cons_of_neg _ (by simp [h0])]
          have hm : setCacheAssoc rest key e
              = rest.map (fun kv => if kv.1 == key then (key, e) else kv) := by
            rw [setCacheAssoc, if_pos hr]
          rw [← hm, ih]
        · rw [if_neg (show ¬((kv0 :: rest).any fun kv => kv.1 == key) = true by
            simp [List.any_cons, h0, hr])]
          rw [List.cons_append]
          rw [List.find?_cons_of_neg _ (by simp [h0])]
          have hm : setCacheAssoc rest key e = rest ++ [(key, e)] := by
            rw [setCacheAssoc, if_neg hr]
          rw [← hm, ih]

/-- C7: a cache `set` followed immediately by a `get` of the same key
returns the stored value; a `get` on a key whose entry has outlived
`CACHE_TTL` (60000 ms) reports the key absent and deletes exactly that
entry; and a `get` never touches entries of other keys and never adds
entries, so eviction happens only lazily, on the read of the expired key
itself. -/
theorem cache_set_get_ttl (c : ApiCache α) (key : String) (v : α) (now later : ℕ) :
    (cacheGet (cacheSet c key v now) key now).1 = some v
  ∧ ((∀ kv ∈ c.cache, kv.1 = key → CACHE_TTL < later - kv.2.timestamp) →
      (cacheGet c key later).1 = none
      ∧ ∀ kv ∈ c.cache, (kv ∈ (cacheGet c key later).2.cache ↔ kv.1 ≠ key))
  ∧ (∀ kv ∈ c.cache, kv.1 ≠ key → kv ∈ (cacheGet c key later).2.cache)
  ∧ (∀ kv ∈ (cacheGet c key later).2.cache, kv ∈ c.cache)
  ∧ CACHE_TTL = 60000 := by
  refine ⟨?_, ?_, ?_, ?_, rfl⟩
  · rw [cacheGet]
    have := find?_setCacheAssoc c.cache key ({ data := v, timestamp := now } : CacheEntry α)
    rw [cacheSet]
    dsimp only
    rw [this]
    simp [CACHE_TTL]
  · intro hexp
    rw [cacheGet]
    cases hf : c.cache.find? (fun kv => kv.1 == key) with
    | none =>
        dsimp only
        have hnone : ∀ kv ∈ c.cache, kv.1 ≠ key := by
          intro kv hm
          have := List.find?_eq_none.mp hf kv hm
          simpa using this
        exact ⟨rfl, fun kv hm => ⟨fun _ => hnone kv hm, fun _ => hm⟩⟩
    | some kv0 =>
        have hmem : kv0 ∈ c.cache := List.mem_of_find?_eq_some hf
        have hkey : kv0.1 = key := by
          have := List.find?_some hf
          simpa using this
        have hex : CACHE_TTL < later - kv0.2.timestamp := hexp kv0 hmem hkey
        dsimp only
        rw [if_pos hex]
        refine ⟨rfl, fun kv hm => ?_⟩
        simp only [List.mem_filter, bne_iff_ne, ne_eq]
        constructor
        · rintro ⟨_, hne⟩; exact hne
        · intro hne; exact ⟨hm, hne⟩
  · intro kv hm hne
    rw [cacheGet]
    cases hf : c.cache.find? (fun kv => kv.1 == key) with
    | none => exact hm
    | some kv0 =>
        dsimp only
        by_cases hex : CACHE_TTL < later - kv0.2.timestamp
        · rw [if_pos hex]
          simp only [List.mem_filter, bne_iff_ne, ne_eq]
          exact ⟨hm, hne⟩
        · rw [if_neg hex]
          exact hm
  · intro kv hm
    rw [cacheGet] at hm
    revert hm
    cases hf : c.cache.find? (fun kv => kv.1 == key) with
    | none => exact fun hm => hm
    | some kv0 =>
        dsimp only
        by_cases hex : CACHE_TTL < later - kv0.2.timestamp
        · rw [if_pos hex]
          intro hm
          exact List.mem_of_mem_filter hm
        · rw [if_neg hex]
          exact fun hm => hm

/-- C7 witness: store 42 under a key at time 0, read it back at time 0,
then read at time 70000 ms (past the 60 s TTL) and find it evicted. -/
theorem cache_set_get_ttl_witness :
    (cacheGet (cacheSet (⟨[]⟩ : ApiCache ℕ) "quote:AAPL" 42 0) "quote:AAPL" 0).1 = some 42
  ∧ (cacheGet (⟨[("quote:AAPL", ⟨42, 0⟩)]⟩ : ApiCache ℕ) "quote:AAPL" 70000).1 = none := by
  refine ⟨(cache_set_get_ttl (⟨[]⟩ : ApiCache ℕ) "quote:AAPL" 42 0 0).1, ?_⟩
  have h := (cache_set_get_ttl (⟨[("quote:AAPL", ⟨42, 0⟩)]⟩ : ApiCache ℕ)
    "quote:AAPL" 42 0 70000).2.1
  exact (h (by intro kv hm hk; simp at hm; rw [hm]; decide)).1

/-- Helper: the dates of the synthetic points are today minus the
respective loop indices, independent of the random draws and the base
price threaded through the loop. -/
theorem mockPointsGo_map_date (rand : ℕ → ℚ) (today : ℤ) :
    ∀ (is : List ℕ) (basePrice : ℚ) (r : ℕ),
      (mockPointsGo rand today is basePrice r).map HistoricalDataPoint.date
        = is.map (fun i => today - i) := by
  intro is
  induction is with
  | nil => intro bp r; rfl
  | cons i rest ih =>
      intro bp r
      simp [mockPointsGo, mockPointStep, ih]

/-- C8: when the upstream candle response carries the no-data status, a
1M historical-data request returns the synthetic fallback series: exactly
22 points, with strictly ascending dates that end at today. -/
theorem historical_no_data_1M (resp : CandleData) (rand : ℕ → ℚ) (today : ℤ)
    (hs : resp.s = "no_data") :
    getHistoricalData resp rand today .r1M = generateMockHistoricalData rand today .r1M
  ∧ (getHistoricalData resp rand today .r1M).length = 22
  ∧ List.Chain' (fun a b : HistoricalDataPoint => a.date < b.date)
      (getHistoricalData resp rand today .r1M)
  ∧ ((getHistoricalData resp rand today .r1M).map HistoricalDataPoint.date).getLast?
      = some today := by
  have hmock : getHistoricalData resp rand today .r1M
      = generateMockHistoricalData rand today .r1M := by
    rw [getHistoricalData]
    rw [if_pos (by simp [hs])]
  have hdates : (generateMockHistoricalData rand today .r1M).map HistoricalDataPoint.date
      = ((List.range 22).reverse).map (fun i => today - (i : ℕ)) := by
    rw [generateMockHistoricalData]
    exact mockPointsGo_map_date rand today _ 150 0
  have hrev : (List.range 22).reverse
      = [21, 20, 19, 18, 17, 16, 15, 14, 13, 12, 11, 10, 9, 8, 7, 6, 5, 4, 3, 2, 1, 0] := by
    rfl
  refine ⟨hmock, ?_, ?_, ?_⟩
  · rw [hmock]
    have hlen := congrArg List.length hdates
    simpa using hlen
  · rw [hmock]
    have hc : List.Chain' (fun a b : ℤ => a < b)
        ((generateMockHistoricalData rand today .r1M).map HistoricalDataPoint.date) := by
      rw [hdates, hrev]
      simp only [List.map_cons, List.map_nil, List.chain'_cons, List.chain'_singleton,
        and_true]
      omega
    exact (List.chain'_map HistoricalDataPoint.date).mp hc
  · rw [hmock, hdates, List.getLast?_map]
    have h0 : ((List.range 22).reverse).getLast? = some 0 := by decide
    rw [h0]
    simp

/-- C8 witness: a concrete no-data response for the 1M range yields 22
points. -/
theorem historical_no_data_1M_witness :
    (getHistoricalData ⟨"no_data", none, none, none, none, none, none⟩
      (fun _ => 1 / 2) 0 .r1M).length = 22 :=
  (historical_no_data_1M ⟨"no_data", none, none, none, none, none, none⟩
    (fun _ => 1 / 2) 0 rfl).2.1

/-- A well-formed holding: positive share count and a cost basis
consistent with the average cost. -/
def GoodHolding (h : PortfolioHolding) : Prop :=
  0 < h.shares ∧ h.totalCost = h.shares * h.averageCost

/-- The ledger invariant: non-negative cash and well-formed holdings. -/
def LedgerInvariant (st : PortfolioState) : Prop :=
  0 ≤ st.cashBalance ∧ ∀ h ∈ st.holdings, GoodHolding h

/-- A dispatched order as the transaction form validates it: at least one
share; the fetched price is a market quote and hence non-negative. -/
def ValidOp : PortfolioOp → Prop
  | .buy _ _ shares price _ _ => 1 ≤ shares ∧ 0 ≤ price
  | .sell _ shares price _ _ => 1 ≤ shares ∧ 0 ≤ price

/-- Portfolio states reachable from the initial state through the
portfolio reducers: validated buy/sell dispatches, reset, reconfigure and
price updates. -/
inductive Reachable : PortfolioState → Prop where
  | init : Reachable initialPortfolioState
  | step (st : PortfolioState) (op : PortfolioOp) :
      Reachable st → ValidOp op → Reachable (applyOp st op)
  | reset (st : PortfolioState) : Reachable st → Reachable (resetPortfolio st)
  | reconfigure (st : PortfolioState) (amount : ℚ) :
      Reachable st → Reachable (setInitialBalance st amount)
  | priceUpdate (st : PortfolioState) (symbol : String) (price : ℚ) :
      Reachable st → Reachable (updatePrice st symbol price)

/-- Helper: membership after the replace-or-append of the buy reducer. -/
theorem mem_upsertHolding (l : List PortfolioHolding) (newH h : PortfolioHolding)
    (hm : h ∈ upsertHolding l newH) : h ∈ l ∨ h = newH := by
  induction l with
  | nil =>
      rw [upsertHolding] at hm
      right
      simpa using hm
  | cons h0 rest ih =>
      rw [upsertHolding] at hm
      by_cases he : (h0.symbol == newH.symbol) = true
      · rw [if_pos he] at hm
        rcases List.mem_cons.mp hm with rfl | hm2
        · right; rfl
        · left; exact List.mem_cons_of_mem _ hm2
      · rw [if_neg he] at hm
        rcases List.mem_cons.mp hm with rfl | hm2
        · left; exact List.mem_cons_self _ _
        · rcases ih hm2 with hmem | rfl
          · left; exact List.mem_cons_of_mem _ hmem
          · right; rfl

/-- Helper: membership after the replace-in-place of the sell reducer. -/
theorem mem_replaceHolding (l : List PortfolioHolding) (newH h : PortfolioHolding)
    (hm : h ∈ replaceHolding l newH) : h ∈ l ∨ h = newH := by
  induction l with
  | nil =>
      rw [replaceHolding] at hm
      simp at hm
  | cons h0 rest ih =>
      rw [replaceHolding] at hm
      by_cases he : (h0.symbol == newH.symbol) = true
      · rw [if_pos he] at hm
        rcases List.mem_cons.mp hm with rfl | hm2
        · right; rfl
        · left; exact List.mem_cons_of_mem _ hm2
      · rw [if_neg he] at hm
        rcases List.mem_cons.mp hm with rfl | hm2
        · left; exact List.mem_cons_self _ _
        · rcases ih hm2 with hmem | rfl
          · left; exact List.mem_cons_of_mem _ hmem
          · right; rfl

/-- Helper: a validated buy dispatch preserves the ledger invariant,
whether it is fulfilled or rejected. -/
theorem applyOp_buy_invariant (st : PortfolioState) (symbol name : String)
    (shares price : ℚ) (txId : String) (ts : ℕ)
    (hinv : LedgerInvariant st) (hn : 1 ≤ shares) :
    LedgerInvariant (applyOp st (.buy symbol name shares price txId ts)) := by
  obtain ⟨hcash, hhold⟩ := hinv
  rw [applyOp]
  rw [executeBuyOrder]
  by_cases hp : price = 0
  · rw [if_pos hp]
    exact ⟨hcash, hhold⟩
  · rw [if_neg hp]
    dsimp only
    by_cases hc : price * shares > (orderPending st).cashBalance
    · rw [if_pos hc]
      exact ⟨hcash, hhold⟩
    · rw [if_neg hc]
      dsimp only
      have hcash2 : (0 : ℚ) ≤ (orderPending st).cashBalance - price * shares := by
        have : price * shares ≤ (orderPending st).cashBalance := not_lt.mp hc
        simpa using this
      refine ⟨hcash2, ?_⟩
      intro h hm
      rw [buyFulfilled] at hm
      dsimp only at hm
      rcases mem_upsertHolding _ _ h hm with hmem | rfl
      · exact hhold h hmem
      · cases hf : (orderPending st).holdings.find? (fun h2 => h2.symbol == symbol) with
        | some ex =>
            dsimp only
            have hex : GoodHolding ex := hhold ex (List.mem_of_find?_eq_some hf)
            have hpos : (0 : ℚ) < ex.shares + shares := by
              have := hex.1
              linarith
            have hS : ex.shares + shares ≠ 0 := ne_of_gt hpos
            refine ⟨hpos, ?_⟩
            dsimp only
            field_simp
        | none =>
            dsimp only
            refine ⟨by linarith, ?_⟩
            dsimp only
            ring

/-- Helper: a validated sell dispatch preserves the ledger invariant,
whether it is fulfilled or rejected. -/
theorem applyOp_sell_invariant (st : PortfolioState) (symbol : String)
    (shares price : ℚ) (txId : String) (ts : ℕ)
    (hinv : LedgerInvariant st) (hn : 1 ≤ shares) (hpr : 0 ≤ price) :
    LedgerInvariant (applyOp st (.sell symbol shares price txId ts)) := by
  obtain ⟨hcash, hhold⟩ := hinv
  rw [applyOp]
  rw [executeSellOrder]
  cases hf : (orderPending st).holdings.find? (fun h2 => h2.symbol == symbol) with
  | none => exact ⟨hcash, hhold⟩
  | some ex =>
      dsimp only
      by_cases hs : shares > ex.shares
      · rw [if_pos hs]
        exact ⟨hcash, hhold⟩
      · rw [if_neg hs]
        by_cases hp : price = 0
        · rw [if_pos hp]
          exact ⟨hcash, hhold⟩
        · rw [if_neg hp]
          dsimp only
          have hcash2 : (0 : ℚ) ≤ (orderPending st).cashBalance + price * shares := by
            have hps : (0 : ℚ) ≤ price * shares := mul_nonneg hpr (by linarith)
            have : (orderPending st).cashBalance = st.cashBalance := rfl
            linarith [hcash, hps, this.ge]
          refine ⟨by simpa [sellFulfilled] using hcash2, ?_⟩
          intro h hm
          rw [sellFulfilled] at hm
          dsimp only at hm
          by_cases hlt : shares < ex.shares
          · rw [if_pos hlt] at hm
            dsimp only at hm
            rcases mem_replaceHolding _ _ h hm with hmem | rfl
            · exact hhold h hmem
            · refine ⟨by dsimp only; linarith, ?_⟩
              dsimp only
              rw [mul_comm]
          · rw [if_neg hlt] at hm
            dsimp only at hm
            exact hhold h (List.mem_of_mem_filter hm)

/-- Helper: every validated dispatch preserves the ledger invariant. -/
theorem applyOp_invariant (st : PortfolioState) (op : PortfolioOp)
    (hinv : LedgerInvariant st) (hop : ValidOp op) :
    LedgerInvariant (applyOp st op) := by
  cases op with
  | buy symbol name shares price txId ts =>
      exact applyOp_buy_invariant st symbol name shares price txId ts hinv hop.1
  | sell symbol shares price txId ts =>
      exact applyOp_sell_invariant st symbol shares price txId ts hinv hop.1 hop.2

/-- Helper: every reachable portfolio state satisfies the ledger
invariant. -/
theorem reachable_invariant (st : PortfolioState) (h : Reachable st) :
    LedgerInvariant st := by
  induction h with
  | init =>
      refine ⟨by norm_num [initialPortfolioState, DEFAULT_INITIAL_BALANCE], ?_⟩
      intro h hm
      simp [initialPortfolioState] at hm
  | step st op hr hop ih => exact applyOp_invariant st op ih hop
  | reset st hr ih =>
      refine ⟨by norm_num [resetPortfolio, DEFAULT_INITIAL_BALANCE], ?_⟩
      intro h hm
      simp [resetPortfolio] at hm
  | reconfigure st amount hr ih =>
      refine ⟨?_, ?_⟩
      · simp only [setInitialBalance]
        exact le_max_left 0 amount
      · intro h hm
        simp [setInitialBalance] at hm
  | priceUpdate st symbol price hr ih => exact ih

/-- C1: from any reachable portfolio state, along any sequence of
dispatched buy/sell orders with form-validated share counts and
non-negative fetched prices, the cash balance stays non-negative after
every step and every holding's cost basis equals its share count times
its average cost after every step (exactly, since the model computes in
ℚ). -/
theorem ledger_invariant_all_steps (st : PortfolioState) (hst : Reachable st)
    (ops : List PortfolioOp) (hops : ∀ op ∈ ops, ValidOp op) :
    ∀ st2 ∈ ops.scanl applyOp st,
      0 ≤ st2.cashBalance
      ∧ ∀ h ∈ st2.holdings, h.totalCost = h.shares * h.averageCost := by
  have main : ∀ (l : List PortfolioOp) (s : PortfolioState), LedgerInvariant s →
      (∀ op ∈ l, ValidOp op) → ∀ st2 ∈ l.scanl applyOp s, LedgerInvariant st2 := by
    intro l
    induction l with
    | nil =>
        intro s h _ st2 hm
        rw [List.scanl_nil] at hm
        simp at hm
        rwa [hm]
    | cons op rest ih =>
        intro s h hops2 st2 hm
        rw [List.scanl_cons, List.singleton_append] at hm
        rcases List.mem_cons.mp hm with rfl | hm2
        · exact h
        · exact ih (applyOp s op)
            (applyOp_invariant s op h (hops2 op (List.mem_cons_self _ _)))
            (fun o ho => hops2 o (List.mem_cons_of_mem _ ho)) st2 hm2
  intro st2 hm
  have h2 := main ops st (reachable_invariant st hst) hops st2 hm
  exact ⟨h2.1, fun h hm2 => (h2.2 h hm2).2⟩

/-- C1 witness: one validated buy from the initial state; the state after
the step has non-negative cash. -/
theorem ledger_invariant_all_steps_witness :
    0 ≤ (applyOp initialPortfolioState
      (.buy "AAPL" "Apple Inc" 10 150 "tx1" 1)).cashBalance := by
  have h := ledger_invariant_all_steps initialPortfolioState Reachable.init
    [.buy "AAPL" "Apple Inc" 10 150 "tx1" 1]
    (by
      intro op hop
      simp at hop
      subst hop
      exact ⟨by norm_num, by norm_num⟩)
  exact (h (applyOp initialPortfolioState (.buy "AAPL" "Apple Inc" 10 150 "tx1" 1))
    (by
      rw [List.scanl_cons, List.scanl_nil]
      simp)).1

/-- Helper: a buy with a nonzero fetched price and sufficient cash
succeeds with the explicitly computed payload. -/
theorem executeBuyOrder_ok_eq (st : PortfolioState) (symbol name : String)
    (shares price : ℚ) (txId : String) (ts : ℕ)
    (hp : ¬price = 0) (hc : ¬price * shares > st.cashBalance) :
    executeBuyOrder st symbol name shares price txId ts
      = .ok
          { holding :=
              match st.holdings.find? (fun h => h.symbol == symbol) with
              | some ex =>
                  { symbol := symbol
                    name := ex.name
                    shares := ex.shares + shares
                    averageCost := (ex.totalCost + price * shares) / (ex.shares + shares)
                    totalCost := ex.totalCost + price * shares }
              | none =>
                  { symbol := symbol
                    name := name
                    shares := shares
                    averageCost := price
                    totalCost := price * shares }
            transaction :=
              { id := txId, type := .buy, symbol := symbol, name := name
                shares := shares, price := price, total := price * shares, timestamp := ts }
            newCashBalance := st.cashBalance - price * shares } := by
  rw [executeBuyOrder, if_neg hp]
  dsimp only
  rw [if_neg hc]

/-- Helper: a sell of a held symbol with enough shares and a nonzero
price succeeds with the explicitly computed payload. -/
theorem executeSellOrder_ok_eq (st : PortfolioState) (symbol : String)
    (shares price : ℚ) (txId : String) (ts : ℕ) (ex : PortfolioHolding)
    (hf : st.holdings.find? (fun h => h.symbol == symbol) = some ex)
    (hsh : ¬shares > ex.shares) (hp : ¬price = 0) :
    executeSellOrder st symbol shares price txId ts
      = .ok
          { holding :=
              if shares < ex.shares then
                some
                  { symbol := ex.symbol
                    name := ex.name
                    shares := ex.shares - shares
                    averageCost := ex.averageCost
                    totalCost := ex.averageCost * (ex.shares - shares) }
              else none
            transaction :=
              { id := txId, type := .sell, symbol := symbol, name := ex.name
                shares := shares, price := price, total := price * shares, timestamp := ts }
            newCashBalance := st.cashBalance + price * shares
            realizedPnL := price * shares - ex.averageCost * shares } := by
  rw [executeSellOrder, hf]
  dsimp only
  rw [if_neg hsh, if_neg hp]

/-- Helper: after the buy reducer upserts a holding, looking up its
symbol finds exactly that holding, whatever the list held before. -/
theorem find?_upsertHolding (l : List PortfolioHolding) (newH : PortfolioHolding) :
    (upsertHolding l newH).find? (fun h => h.symbol == newH.symbol) = some newH := by
  induction l with
  | nil =>
      rw [upsertHolding]
      rw [List.find?_cons_of_pos _ (by simp)]
  | cons h0 rest ih =>
      rw [upsertHolding]
      by_cases he : (h0.symbol == newH.symbol) = true
      · rw [if_pos he]
        rw [List.find?_cons_of_pos _ (by simp)]
      · rw [if_neg he]
        have hfalse : (h0.symbol == newH.symbol) = false := by
          simpa using he
        simp only [List.find?, hfalse]
        exact ih

/-- C3 counterexample: with a pre-existing AAPL position of 10 shares at
average cost 100 and cash 10000, the trade pair buy 10 at 200 then sell
those 10 at 200 satisfies every hypothesis of the claim (positive price
and share count, cash at least the order total), yet the sell reports a
realized profit of 500, not zero: the buy repriced the position to
average cost 150. -/
theorem buy_sell_round_trip_counterexample :
    (0 : ℚ) < 10 ∧ (0 : ℚ) < 200 ∧ (10 : ℚ) * 200 ≤ 10000
  ∧ (executeSellOrder
      (orderPending (applyOp
        { holdings := [⟨"AAPL", "Apple Inc", 10, 100, 1000⟩]
          transactions := []
          cashBalance := 10000
          initialBalance := 100000
          currentPrices := []
          status := .idle
          error := none }
        (.buy "AAPL" "Apple Inc" 10 200 "b1" 0)))
      "AAPL" 10 200 "s1" 1).map SellPayload.realizedPnL = .ok 500 := by
  norm_num [applyOp, executeBuyOrder, executeSellOrder, orderPending, buyFulfilled,
    upsertHolding, setAssoc, Except.map]

/-- C3 (amended): buying `n` shares at fetched price `p` and immediately
selling those `n` shares at fetched price `p` always returns the cash
balance exactly to its pre-buy value; the reported realized P&L is
exactly zero provided the symbol was not already held before the buy. -/
theorem buy_sell_round_trip (st : PortfolioState) (symbol name id1 id2 : String)
    (t1 t2 : ℕ) (n p : ℚ) (_hn : 0 < n) (hp : 0 < p)
    (hcash : p * n ≤ st.cashBalance)
    (hsh : ∀ h ∈ st.holdings, 0 ≤ h.shares) :
    (applyOp (applyOp st (.buy symbol name n p id1 t1))
        (.sell symbol n p id2 t2)).cashBalance = st.cashBalance
  ∧ ((∀ h ∈ st.holdings, h.symbol ≠ symbol) →
      (executeSellOrder (orderPending (applyOp st (.buy symbol name n p id1 t1)))
          symbol n p id2 t2).map SellPayload.realizedPnL = .ok 0) := by
  have hp0 : ¬p = 0 := ne_of_gt hp
  have hc : ¬p * n > (orderPending st).cashBalance := not_lt.mpr hcash
  have hbuy := executeBuyOrder_ok_eq (orderPending st) symbol name n p id1 t1 hp0 hc
  set st1 := applyOp st (.buy symbol name n p id1 t1) with hst1
  cases hf : (orderPending st).holdings.find? (fun h => h.symbol == symbol) with
  | some ex =>
      rw [hf] at hbuy
      dsimp only at hbuy
      have happ1 : st1 = buyFulfilled (orderPending st)
          { holding :=
              { symbol := symbol
                name := ex.name
                shares := ex.shares + n
                averageCost := (ex.totalCost + p * n) / (ex.shares + n)
                totalCost := ex.totalCost + p * n }
            transaction :=
              { id := id1, type := .buy, symbol := symbol, name := name
                shares := n, price := p, total := p * n, timestamp := t1 }
            newCashBalance := (orderPending st).cashBalance - p * n } := by
        rw [hst1, applyOp, hbuy]
      have hfind1 : (orderPending st1).holdings.find? (fun h => h.symbol == symbol)
          = some
              { symbol := symbol
                name := ex.name
                shares := ex.shares + n
                averageCost := (ex.totalCost + p * n) / (ex.shares + n)
                totalCost := ex.totalCost + p * n } := by
        rw [happ1]
        exact find?_upsertHolding (orderPending st).holdings
          { symbol := symbol
            name := ex.name
            shares := ex.shares + n
            averageCost := (ex.totalCost + p * n) / (ex.shares + n)
            totalCost := ex.totalCost + p * n }
      have hex0 : (0 : ℚ) ≤ ex.shares := hsh ex (List.mem_of_find?_eq_some hf)
      have hns : ¬(n : ℚ) > ex.shares + n := not_lt.mpr (by linarith)
      have hsell := executeSellOrder_ok_eq (orderPending st1) symbol n p id2 t2 _
        hfind1 hns hp0
      constructor
      · rw [applyOp, hsell]
        dsimp only [sellFulfilled]
        rw [happ1]
        dsimp only [buyFulfilled, orderPending]
        ring
      · intro hnone
        exfalso
        have hmem : ex ∈ st.holdings := List.mem_of_find?_eq_some hf
        have hsym := List.find?_some hf
        exact hnone ex hmem (by simpa using hsym)
  | none =>
      rw [hf] at hbuy
      dsimp only at hbuy
      have happ1 : st1 = buyFulfilled (orderPending st)
          { holding :=
              { symbol := symbol, name := name, shares := n
                averageCost := p, totalCost := p * n }
            transaction :=
              { id := id1, type := .buy, symbol := symbol, name := name
                shares := n, price := p, total := p * n, timestamp := t1 }
            newCashBalance := (orderPending st).cashBalance - p * n } := by
        rw [hst1, applyOp, hbuy]
      have hfind1 : (orderPending st1).holdings.find? (fun h => h.symbol == symbol)
          = some
              { symbol := symbol, name := name, shares := n
                averageCost := p, totalCost := p * n } := by
        rw [happ1]
        exact find?_upsertHolding (orderPending st).holdings
          { symbol := symbol, name := name, shares := n
            averageCost := p, totalCost := p * n }
      have hns : ¬(n : ℚ) > n := not_lt.mpr le_rfl
      have hsell := executeSellOrder_ok_eq (orderPending st1) symbol n p id2 t2 _
        hfind1 hns hp0
      constructor
      · rw [applyOp, hsell]
        dsimp only [sellFulfilled]
        rw [happ1]
        dsimp only [buyFulfilled, orderPending]
        ring
      · intro _
        rw [hsell]
        dsimp only [Except.map]
        rw [sub_self]

/-- C3 witness for the amended theorem: a round trip of 10 shares at
price 150 from the initial state restores cash 100000 and reports zero
realized P&L. -/
theorem buy_sell_round_trip_witness :
    (applyOp (applyOp initialPortfolioState (.buy "AAPL" "Apple Inc" 10 150 "b1" 0))
        (.sell "AAPL" 10 150 "s1" 1)).cashBalance = initialPortfolioState.cashBalance
  ∧ (executeSellOrder
      (orderPending (applyOp initialPortfolioState (.buy "AAPL" "Apple Inc" 10 150 "b1" 0)))
      "AAPL" 10 150 "s1" 1).map SellPayload.realizedPnL = .ok 0 := by
  have h := buy_sell_round_trip initialPortfolioState "AAPL" "Apple Inc" "b1" "s1" 0 1
    10 150 (by norm_num) (by norm_num)
    (by norm_num [initialPortfolioState, DEFAULT_INITIAL_BALANCE])
    (by intro h2 hm; simp [initialPortfolioState] at hm)
  exact ⟨h.1, h.2 (by intro h2 hm; simp [initialPortfolioState] at hm)⟩

end StockDashboard
